import Mathlib

/-
Shallow embedding of src/watch.c (procps watch with paging support).
Cells of the output buffer are chtype values, modelled as natural numbers:
the low 8 bits hold the character (mask A_CHARTEXT), the higher bits hold
render attributes (mask A_ATTRIBUTES), bit 16 is the standout attribute
used to highlight differences (A_STANDOUT).  Bytes read from the command
pipe are values below 256 and become cells directly.
-/

/-- Mask of the character part of a cell (ncurses A_CHARTEXT, low 8 bits). -/
def A_CHARTEXT : ℕ := 255

/-- Highlight attribute bit (ncurses A_STANDOUT, bit 16). -/
def A_STANDOUT : ℕ := 65536

/-- Mask of all attribute bits of a 32-bit cell (ncurses A_ATTRIBUTES, bits 8 to 31). -/
def A_ATTRIBUTES : ℕ := 4294967040

/-- Diff configuration from the command line: option_differences and
option_differences_cumulative in src/watch.c main. -/
structure DiffOpts where
  differences : Bool
  cumulative : Bool

/-- One offset of the diff loop, src/watch.c lines 388 to 398: if the bare
characters differ, OR in A_STANDOUT; in cumulative mode additionally OR in
all attribute bits of the previous cell. -/
def annotateCell (cumulative : Bool) (prevCell newCell : ℕ) : ℕ :=
  let highlighted :=
    if newCell &&& A_CHARTEXT ≠ prevCell &&& A_CHARTEXT then newCell ||| A_STANDOUT
    else newCell
  if cumulative then highlighted ||| (prevCell &&& A_ATTRIBUTES) else highlighted

/-- The diff loop over a newly appended span, src/watch.c line 388: index i
runs from the start of the span while i is below the previous buffer length;
cells at offsets past the previous length are left untouched. -/
def annotateFrom (cumulative : Bool) (prev : List ℕ) : ℕ → List ℕ → List ℕ
  | _, [] => []
  | i, c :: rest =>
      (if i < prev.length then annotateCell cumulative (prev.getD i 0) c else c)
        :: annotateFrom cumulative prev (i + 1) rest

/-- Appending one fread chunk to the output buffer and running the diff loop
over the new span, src/watch.c lines 372 to 399.  Each raw byte becomes a
cell directly. -/
def appendChunk (opts : DiffOpts) (prev out chunk : List ℕ) : List ℕ :=
  out ++ (if opts.differences then annotateFrom opts.cumulative prev out.length chunk
          else chunk)

/-- Assembling a whole run from the sequence of chunks returned by fread. -/
def assembleRun (opts : DiffOpts) (prev : List ℕ) (chunks : List (List ℕ)) : List ℕ :=
  chunks.foldl (appendChunk opts prev) []

/-- Assembling a whole run from its byte sequence in one bulk append. -/
def assembleBulk (opts : DiffOpts) (prev : List ℕ) (bytes : List ℕ) : List ℕ :=
  appendChunk opts prev [] bytes

/-- A sequence of runs in cumulative diff mode: each run is assembled against
the previous output buffer, which then becomes the new previous buffer. -/
def runSeqCumulative (prev : List ℕ) (runs : List (List ℕ)) : List ℕ :=
  runs.foldl (fun p O => assembleBulk ⟨true, true⟩ p O) prev

/-- All bits of a are also set in b. -/
def bitSubset (a b : ℕ) : Prop := a ||| b = b

/-- Logical cursor advancement, src/watch.c lines 340 to 351: a tab adds 8 to
the column, a newline resets the column and advances the row, any other
character adds 1 to the column.  The pair is (column, row). -/
def advanceCursor (p : ℕ × ℕ) (c : ℕ) : ℕ × ℕ :=
  if c = 9 then (p.1 + 8, p.2)
  else if c = 10 then (0, p.2 + 1)
  else (p.1 + 1, p.2)

/-- Replaying the cursor over a byte sequence from the buffer start. -/
def replayCursor (bytes : List ℕ) : ℕ × ℕ :=
  bytes.foldl advanceCursor (0, 0)

/-- Paging keys handled by the input switch, src/watch.c lines 408 to 447. -/
inductive PagingKey where
  | up
  | down
  | left
  | right
  | npage
  | ppage
  | jumpHome
  | jumpEnd
deriving DecidableEq

/-- Viewport state mutated by the paging switch and the go-to-end logic. -/
structure ViewState where
  origin_x : ℤ
  origin_y : ℤ
  go_to_end : Bool
deriving DecidableEq

/-- The paging input switch, src/watch.c lines 408 to 447, one key event. -/
def handleKey (height show_title : ℤ) (k : PagingKey) (s : ViewState) : ViewState :=
  match k with
  | .up =>
      let oy := s.origin_y - 8
      { s with origin_y := if oy ≥ 0 then oy else 0 }
  | .right => { s with origin_x := s.origin_x + 8 }
  | .down => { s with origin_y := s.origin_y + 8 }
  | .left =>
      let ox := s.origin_x - 8
      { s with origin_x := if ox ≥ 0 then ox else 0 }
  | .npage => { s with origin_y := s.origin_y + (height - show_title) }
  | .ppage =>
      let oy := s.origin_y - (height - show_title)
      { s with origin_y := if oy ≥ 0 then oy else 0 }
  | .jumpHome => { s with origin_x := 0, origin_y := 0 }
  | .jumpEnd => { s with origin_x := 0, go_to_end := true }

/-- A sequence of paging key events applied in order. -/
def scrollSeq (height show_title : ℤ) (ks : List PagingKey) (s : ViewState) : ViewState :=
  ks.foldl (fun st k => handleKey height show_title k st) s

/-- The per-tick viewport clamp, src/watch.c lines 277 to 280, applied when
max_y is known (not -1). -/
def clampViewportY (max_y height origin_y : ℤ) : ℤ :=
  if origin_y > max_y - height then max_y - height else origin_y

/-- Resolution of the one-shot go-to-end flag at end of stream, src/watch.c
lines 362 to 371: origin_y is set to the final cursor row minus the height
and the flag is cleared. -/
def resolveGoToEnd (height max_y : ℤ) (s : ViewState) : ViewState :=
  if s.go_to_end then { s with origin_y := max_y - height, go_to_end := false } else s

/-- Value of UINT_MAX on the 32-bit unsigned int of the target platform. -/
def UINT_MAX : ℕ := 4294967295

/-- Upper cap of the interval option: the C expression is unsigned integer
division, src/watch.c line 183. -/
def intervalCap : ℚ := ((UINT_MAX / 1000000 : ℕ) : ℚ)

/-- Clamping of the parsed interval option, src/watch.c lines 181 to 184. -/
def clampInterval (x : ℚ) : ℚ :=
  let x1 := if x < 1/10 then 1/10 else x
  if x1 > intervalCap then intervalCap else x1

/-- Observable behaviour of a fatal exit: whether endwin runs before exit
and the exit status. -/
structure FatalExit where
  restores_terminal : Bool
  status : ℕ
deriving DecidableEq

/-- The do_exit helper, src/watch.c lines 65 to 71: ends curses mode when it
was started, then exits with the given status. -/
def do_exit (curses_started : Bool) (status : ℕ) : FatalExit :=
  { restores_terminal := curses_started, status := status }

/-- The popen failure path, src/watch.c lines 293 to 296: perror then
do_exit(2); curses is already started at that point (line 241). -/
def spawnFailureExit : FatalExit := do_exit true 2

/-- The realloc failure path, src/watch.c lines 376 to 379: puts then a bare
exit(1), bypassing endwin, so the terminal is left in curses mode. -/
def reallocFailureExit : FatalExit := { restores_terminal := false, status := 1 }

/-- The gettimeofday failure paths, src/watch.c lines 251 to 254 and 451 to
454: puts then a bare exit(1), bypassing endwin. -/
def clockFailureExit : FatalExit := { restores_terminal := false, status := 1 }

/- ---------------------------------------------------------------- -/
/- Bitwise helper lemmas.                                           -/
/- ---------------------------------------------------------------- -/

theorem land_distrib_lor (a b m : ℕ) : (a ||| b) &&& m = (a &&& m) ||| (b &&& m) := by
  apply Nat.eq_of_testBit_eq
  intro i
  simp only [Nat.testBit_land, Nat.testBit_lor]
  cases a.testBit i <;> cases b.testBit i <;> cases m.testBit i <;> rfl

theorem nat_lor_zero (a : ℕ) : a ||| 0 = a := by
  apply Nat.eq_of_testBit_eq
  intro i
  simp only [Nat.testBit_lor, Nat.zero_testBit]
  cases a.testBit i <;> rfl

theorem nat_land_zero (a : ℕ) : a &&& 0 = 0 := by
  apply Nat.eq_of_testBit_eq
  intro i
  simp only [Nat.testBit_land, Nat.zero_testBit]
  cases a.testBit i <;> rfl

theorem nat_land_self (a : ℕ) : a &&& a = a := by
  apply Nat.eq_of_testBit_eq
  intro i
  simp only [Nat.testBit_land]
  cases a.testBit i <;> rfl

theorem land_lor_absorb (x m : ℕ) : (x ||| m) &&& m = m := by
  apply Nat.eq_of_testBit_eq
  intro i
  simp only [Nat.testBit_land, Nat.testBit_lor]
  cases x.testBit i <;> cases m.testBit i <;> rfl

theorem land_lor_self_absorb (a b : ℕ) : (a &&& b) ||| a = a := by
  apply Nat.eq_of_testBit_eq
  intro i
  simp only [Nat.testBit_land, Nat.testBit_lor]
  cases a.testBit i <;> cases b.testBit i <;> rfl

theorem lor_absorb_right (a x : ℕ) : a ||| (x ||| a) = x ||| a := by
  apply Nat.eq_of_testBit_eq
  intro i
  simp only [Nat.testBit_lor]
  cases a.testBit i <;> cases x.testBit i <;> rfl

theorem land_small_two_pow {c : ℕ} (h : c < 65536) : c &&& 65536 = 0 := by
  apply Nat.eq_of_testBit_eq
  intro i
  simp only [Nat.testBit_land, Nat.zero_testBit]
  by_cases hi : i = 16
  · subst hi
    rw [Nat.testBit_eq_false_of_lt (by norm_num at h ⊢; omega)]
    rfl
  · have h2 : (65536 : ℕ) = 2 ^ 16 := by norm_num
    rw [h2, Nat.testBit_two_pow_of_ne (fun he => hi he.symm)]
    exact Bool.and_false _

theorem bitSubset_trans {a b c : ℕ} (h1 : bitSubset a b) (h2 : bitSubset b c) :
    bitSubset a c := by
  unfold bitSubset at *
  calc a ||| c = a ||| (b ||| c) := by rw [h2]
    _ = a ||| b ||| c := (Nat.lor_assoc a b c).symm
    _ = b ||| c := by rw [h1]
    _ = c := h2

theorem bitSubset_land_mono {a b : ℕ} (m : ℕ) (h : bitSubset a b) :
    bitSubset (a &&& m) (b &&& m) := by
  unfold bitSubset at *
  rw [← land_distrib_lor, h]

/- ---------------------------------------------------------------- -/
/- Diff engine helper lemmas.                                       -/
/- ---------------------------------------------------------------- -/

theorem annotateFrom_length (cumulative : Bool) (prev : List ℕ) :
    ∀ (i : ℕ) (l : List ℕ), (annotateFrom cumulative prev i l).length = l.length := by
  intro i l
  induction l generalizing i with
  | nil => rfl
  | cons c rest ih => simp [annotateFrom, ih]

theorem annotateFrom_append (cumulative : Bool) (prev : List ℕ) (l1 : List ℕ) :
    ∀ (i : ℕ) (l2 : List ℕ),
      annotateFrom cumulative prev i (l1 ++ l2) =
        annotateFrom cumulative prev i l1 ++
          annotateFrom cumulative prev (i + l1.length) l2 := by
  induction l1 with
  | nil => intro i l2; simp [annotateFrom]
  | cons c rest ih =>
      intro i l2
      simp only [List.cons_append, annotateFrom, List.append_eq, List.length_cons]
      rw [ih (i + 1) l2]
      rw [show i + 1 + rest.length = i + (rest.length + 1) from by omega]

theorem annotateFrom_getD (cumulative : Bool) (prev : List ℕ) :
    ∀ (l : List ℕ) (i k : ℕ), k < l.length →
      (annotateFrom cumulative prev i l).getD k 0 =
        if i + k < prev.length then
          annotateCell cumulative (prev.getD (i + k) 0) (l.getD k 0)
        else l.getD k 0 := by
  intro l
  induction l with
  | nil => intro i k hk; simp at hk
  | cons c rest ih =>
      intro i k hk
      cases k with
      | zero => simp [annotateFrom]
      | succ k =>
          have hk2 : k < rest.length := by
            simpa using hk
          simp only [annotateFrom, List.getD_cons_succ]
          rw [ih (i + 1) k hk2]
          rw [show i + 1 + k = i + (k + 1) from by omega]

theorem appendChunk_merge (opts : DiffOpts) (prev out c1 c2 : List ℕ) :
    appendChunk opts prev (appendChunk opts prev out c1) c2 =
      appendChunk opts prev out (c1 ++ c2) := by
  by_cases hd : opts.differences
  · simp only [appendChunk, hd, if_pos, List.length_append,
      annotateFrom_length, annotateFrom_append, List.append_assoc]
  · simp [appendChunk, hd, List.append_assoc]

theorem foldl_appendChunk (opts : DiffOpts) (prev : List ℕ) :
    ∀ (chunks : List (List ℕ)) (out : List ℕ),
      chunks.foldl (appendChunk opts prev) out = appendChunk opts prev out chunks.flatten := by
  intro chunks
  induction chunks with
  | nil =>
      intro out
      simp [appendChunk, annotateFrom]
  | cons c cs ih =>
      intro out
      simp only [List.foldl_cons, List.flatten_cons, ih, appendChunk_merge]

theorem flatten_map_singleton (l : List ℕ) : (l.map (fun b => [b])).flatten = l := by
  induction l with
  | nil => rfl
  | cons a rest ih => simp [ih]

theorem annotateCell_lor_form (cumulative : Bool) (p c : ℕ) :
    ∃ d, d &&& A_CHARTEXT = 0 ∧ annotateCell cumulative p c = c ||| d := by
  have hS : A_STANDOUT &&& A_CHARTEXT = 0 := by decide
  have hA : (p &&& A_ATTRIBUTES) &&& A_CHARTEXT = 0 := by
    rw [Nat.land_assoc]
    rw [show A_ATTRIBUTES &&& A_CHARTEXT = 0 from by decide]
    exact nat_land_zero p
  by_cases hdif : c &&& A_CHARTEXT ≠ p &&& A_CHARTEXT
  all_goals cases cumulative
  · exact ⟨A_STANDOUT, hS, by simp [annotateCell, hdif]⟩
  · refine ⟨A_STANDOUT ||| (p &&& A_ATTRIBUTES), ?_, ?_⟩
    · rw [land_distrib_lor, hS, hA, nat_lor_zero]
    · simp [annotateCell, hdif, Nat.lor_assoc]
  · exact ⟨0, by decide, by simp [annotateCell, hdif, nat_lor_zero]⟩
  · exact ⟨p &&& A_ATTRIBUTES, hA, by simp [annotateCell, hdif]⟩

theorem charText_of_lor {c d : ℕ} (hd : d &&& A_CHARTEXT = 0) :
    (c ||| d) &&& A_CHARTEXT = c &&& A_CHARTEXT := by
  rw [land_distrib_lor, hd, nat_lor_zero]

/- ---------------------------------------------------------------- -/
/- Claim theorems.                                                  -/
/- ---------------------------------------------------------------- -/

/-- Claim C7 (confirmed): assembling the output buffer from the command
output one byte at a time, or chunk by chunk as the 128-byte reads deliver
it, yields the same cell sequence as a single bulk append; the chunk
boundaries are observationally transparent. -/
theorem chunking_transparent :
    (∀ (opts : DiffOpts) (prev : List ℕ) (chunks : List (List ℕ)),
        assembleRun opts prev chunks = assembleBulk opts prev chunks.flatten)
  ∧ (∀ (opts : DiffOpts) (prev bytes : List ℕ),
        assembleRun opts prev (bytes.map (fun b => [b])) = assembleBulk opts prev bytes) := by
  constructor
  · intro opts prev chunks
    exact foldl_appendChunk opts prev chunks []
  · intro opts prev bytes
    have h := foldl_appendChunk opts prev (bytes.map (fun b => [b])) []
    rw [flatten_map_singleton] at h
    exact h

/-- Claim C10 (confirmed): the diff pass over a newly appended span keeps the
buffer length, leaves every cell before the span untouched, and changes each
cell of the span only by ORing attribute bits onto it, so the bare character
value of every cell is preserved. -/
theorem annotate_frame_effect (opts : DiffOpts) (prev out chunk : List ℕ) :
    (appendChunk opts prev out chunk).length = out.length + chunk.length
  ∧ (∀ i, i < out.length → (appendChunk opts prev out chunk).getD i 0 = out.getD i 0)
  ∧ (∀ i, i < chunk.length →
      ((appendChunk opts prev out chunk).getD (out.length + i) 0) &&& A_CHARTEXT
          = (chunk.getD i 0) &&& A_CHARTEXT
        ∧ ∃ d, d &&& A_CHARTEXT = 0 ∧
            (appendChunk opts prev out chunk).getD (out.length + i) 0
              = (chunk.getD i 0) ||| d) := by
  have hlorform : ∀ i, i < chunk.length →
      ∃ d, d &&& A_CHARTEXT = 0 ∧
        (appendChunk opts prev out chunk).getD (out.length + i) 0 = (chunk.getD i 0) ||| d := by
    intro i hi
    by_cases hd : opts.differences
    · have hle : out.length ≤ out.length + i := Nat.le_add_right _ _
      rw [appendChunk, if_pos hd, List.getD_append_right _ _ _ _ hle]
      rw [Nat.add_sub_cancel_left]
      rw [annotateFrom_getD opts.cumulative prev chunk out.length i hi]
      by_cases hp : out.length + i < prev.length
      · rw [if_pos hp]
        exact annotateCell_lor_form opts.cumulative (prev.getD (out.length + i) 0)
          (chunk.getD i 0)
      · rw [if_neg hp]
        exact ⟨0, by decide, (nat_lor_zero _).symm⟩
    · have hle : out.length ≤ out.length + i := Nat.le_add_right _ _
      rw [appendChunk, if_neg hd, List.getD_append_right _ _ _ _ hle]
      rw [Nat.add_sub_cancel_left]
      exact ⟨0, by decide, (nat_lor_zero _).symm⟩
  refine ⟨?_, ?_, ?_⟩
  · by_cases hd : opts.differences <;>
      simp [appendChunk, hd, annotateFrom_length]
  · intro i hi
    by_cases hd : opts.differences <;>
      rw [appendChunk] <;> simp only [hd, if_pos, if_neg, ite_true, ite_false] <;>
      exact List.getD_append _ _ _ _ hi
  · intro i hi
    obtain ⟨d, hd0, hda⟩ := hlorform i hi
    exact ⟨by rw [hda]; exact charText_of_lor hd0, d, hd0, hda⟩

/-- Claim C10 witness at a concrete instance: the cell before the appended
span is unchanged by the diff pass. -/
theorem annotate_frame_effect_witness :
    (appendChunk ⟨true, true⟩ [1] [2] [3]).getD 0 0 = 2 :=
  (annotate_frame_effect ⟨true, true⟩ [1] [2] [3]).2.1 0 (by decide)

theorem getD_mem (l : List ℕ) : ∀ k, k < l.length → l.getD k 0 ∈ l := by
  induction l with
  | nil => intro k hk; simp at hk
  | cons a rest ih =>
      intro k hk
      cases k with
      | zero => simp
      | succ k =>
          simp only [List.getD_cons_succ]
          exact List.mem_cons_of_mem _ (ih k (by simpa using hk))

theorem assembleBulk_length (opts : DiffOpts) (prev O : List ℕ) :
    (assembleBulk opts prev O).length = O.length := by
  by_cases hd : opts.differences <;> simp [assembleBulk, appendChunk, hd, annotateFrom_length]

theorem assembleBulk_getD (cumulative : Bool) (prev O : List ℕ) (k : ℕ) (hk : k < O.length) :
    (assembleBulk ⟨true, cumulative⟩ prev O).getD k 0 =
      if k < prev.length then annotateCell cumulative (prev.getD k 0) (O.getD k 0)
      else O.getD k 0 := by
  have h1 : assembleBulk ⟨true, cumulative⟩ prev O = annotateFrom cumulative prev 0 O := by
    simp [assembleBulk, appendChunk]
  rw [h1, annotateFrom_getD cumulative prev O 0 k hk]
  simp

theorem annotateCell_noncum_of_ne {p c : ℕ} (h : c &&& A_CHARTEXT ≠ p &&& A_CHARTEXT) :
    annotateCell false p c = c ||| A_STANDOUT := by
  simp [annotateCell, h]

theorem annotateCell_noncum_of_eq {p c : ℕ} (h : ¬c &&& A_CHARTEXT ≠ p &&& A_CHARTEXT) :
    annotateCell false p c = c := by
  simp [annotateCell, h]

theorem standout_set (c : ℕ) : (c ||| A_STANDOUT) &&& A_STANDOUT ≠ 0 := by
  rw [land_lor_absorb]
  decide

theorem standout_clear {c : ℕ} (h : c < 256) : c &&& A_STANDOUT = 0 := by
  have h2 : c &&& 65536 = 0 := land_small_two_pow (by omega)
  simpa [A_STANDOUT] using h2

theorem assembleBulk_cum_split (prev O : List ℕ) (k : ℕ) (hk : k < O.length)
    (hkp : k < prev.length) :
    (assembleBulk ⟨true, true⟩ prev O).getD k 0 =
      ((assembleBulk ⟨true, false⟩ prev O).getD k 0) ||| ((prev.getD k 0) &&& A_ATTRIBUTES) := by
  rw [assembleBulk_getD true prev O k hk, assembleBulk_getD false prev O k hk,
    if_pos hkp, if_pos hkp]
  simp [annotateCell]

theorem runSeq_attr_subset :
    ∀ (runs : List (List ℕ)) (prev : List ℕ) (k : ℕ), k < prev.length →
      (∀ O ∈ runs, k < O.length) →
      bitSubset ((prev.getD k 0) &&& A_ATTRIBUTES) ((runSeqCumulative prev runs).getD k 0) := by
  intro runs
  induction runs with
  | nil =>
      intro prev k _ _
      exact land_lor_self_absorb _ _
  | cons O rest ih =>
      intro prev k hk hall
      have hO : k < O.length := hall O (by simp)
      have hnew_len : k < (assembleBulk ⟨true, true⟩ prev O).length := by
        rw [assembleBulk_length]
        exact hO
      have h1 : bitSubset ((prev.getD k 0) &&& A_ATTRIBUTES)
          ((assembleBulk ⟨true, true⟩ prev O).getD k 0) := by
        rw [assembleBulk_cum_split prev O k hO hk]
        exact lor_absorb_right _ _
      have h2 := bitSubset_land_mono A_ATTRIBUTES h1
      rw [Nat.land_assoc, nat_land_self] at h2
      have hrest : ∀ O2 ∈ rest, k < O2.length := fun O2 hO2 => hall O2 (List.mem_cons_of_mem _ hO2)
      exact bitSubset_trans h2 (ih (assembleBulk ⟨true, true⟩ prev O) k hnew_len hrest)

/-- Claim C3 (confirmed): in diff mode, a newly assembled cell at an offset
also present in the previous buffer carries the highlight attribute exactly
when the two bare character values differ; offsets at or past the previous
length are left untouched; hence when the two runs differ in character at
exactly one offset k, exactly offset k is highlighted among the shared
offsets (non-cumulative mode). -/
theorem diff_highlight_iff_char_differs :
    (∀ (prev O : List ℕ), (∀ b ∈ O, b < 256) →
      ∀ k, k < O.length →
        ((k < prev.length →
            (((assembleBulk ⟨true, false⟩ prev O).getD k 0) &&& A_STANDOUT ≠ 0 ↔
              (O.getD k 0) &&& A_CHARTEXT ≠ (prev.getD k 0) &&& A_CHARTEXT))
          ∧ (prev.length ≤ k →
              (assembleBulk ⟨true, false⟩ prev O).getD k 0 = O.getD k 0)))
  ∧ (∀ (prev O : List ℕ) (k : ℕ), (∀ b ∈ O, b < 256) →
      (∀ i, i < O.length → i < prev.length →
          (((O.getD i 0) &&& A_CHARTEXT ≠ (prev.getD i 0) &&& A_CHARTEXT) ↔ i = k)) →
      ∀ i, i < O.length → i < prev.length →
        ((((assembleBulk ⟨true, false⟩ prev O).getD i 0) &&& A_STANDOUT ≠ 0) ↔ i = k)) := by
  have part1 : ∀ (prev O : List ℕ), (∀ b ∈ O, b < 256) →
      ∀ k, k < O.length → k < prev.length →
        (((assembleBulk ⟨true, false⟩ prev O).getD k 0) &&& A_STANDOUT ≠ 0 ↔
          (O.getD k 0) &&& A_CHARTEXT ≠ (prev.getD k 0) &&& A_CHARTEXT) := by
    intro prev O hO k hk hkp
    have hb : O.getD k 0 < 256 := hO _ (getD_mem O k hk)
    rw [assembleBulk_getD false prev O k hk, if_pos hkp]
    by_cases hdif : (O.getD k 0) &&& A_CHARTEXT ≠ (prev.getD k 0) &&& A_CHARTEXT
    · rw [annotateCell_noncum_of_ne hdif]
      exact ⟨fun _ => hdif, fun _ => standout_set _⟩
    · rw [annotateCell_noncum_of_eq hdif]
      constructor
      · intro hne
        exact absurd (standout_clear hb) hne
      · intro hne
        exact absurd hne hdif
  constructor
  · intro prev O hO k hk
    constructor
    · exact part1 prev O hO k hk
    · intro hkp
      rw [assembleBulk_getD false prev O k hk, if_neg (by omega)]
  · intro prev O k hO hiff i hi hip
    rw [part1 prev O hO i hi hip]
    exact hiff i hi hip

/-- Claim C3 witness: previous run cell 98, new run byte 97; the bare
characters differ at offset 0, so the assembled cell is highlighted. -/
theorem diff_highlight_witness :
    ((assembleBulk ⟨true, false⟩ [98] [97]).getD 0 0) &&& A_STANDOUT ≠ 0 :=
  ((diff_highlight_iff_char_differs.1 [98] [97] (by decide) 0 (by decide)).1
    (by decide)).mpr (by decide)

/-- Claim C4 (confirmed): in cumulative diff mode the annotated cell is the
non-cumulative cell with all attribute bits of the previous cell ORed in,
and over any sequence of runs in which the character at an offset stays
unchanged, attribute bits once present at that offset are carried forward
into every later run. -/
theorem cumulative_attrs_carry_forward :
    (∀ (prev O : List ℕ) (k : ℕ), k < O.length → k < prev.length →
        (assembleBulk ⟨true, true⟩ prev O).getD k 0 =
          ((assembleBulk ⟨true, false⟩ prev O).getD k 0) |||
            ((prev.getD k 0) &&& A_ATTRIBUTES))
  ∧ (∀ (prev : List ℕ) (runs : List (List ℕ)) (k : ℕ),
        k < prev.length → (∀ O ∈ runs, k < O.length) →
        (∀ O ∈ runs, (O.getD k 0) &&& A_CHARTEXT = (prev.getD k 0) &&& A_CHARTEXT) →
        bitSubset ((prev.getD k 0) &&& A_ATTRIBUTES)
          ((runSeqCumulative prev runs).getD k 0)) := by
  constructor
  · intro prev O k hk hkp
    exact assembleBulk_cum_split prev O k hk hkp
  · intro prev runs k hk hall _
    exact runSeq_attr_subset runs prev k hk hall

/-- Claim C4 witness: previous cell 65633 (character 97 with the standout
bit), two later runs both producing byte 97 at offset 0; the attribute bits
of the first cell persist into the final buffer. -/
theorem cumulative_attrs_witness :
    bitSubset ((([65633] : List ℕ).getD 0 0) &&& A_ATTRIBUTES)
      ((runSeqCumulative [65633] [[97], [97]]).getD 0 0) :=
  cumulative_attrs_carry_forward.2 [65633] [[97], [97]] 0 (by decide) (by decide) (by decide)

theorem handleKey_origin_y_nonneg (height show_title : ℤ) (ht : show_title ≤ height)
    (k : PagingKey) (s : ViewState) (hs : 0 ≤ s.origin_y) :
    0 ≤ (handleKey height show_title k s).origin_y := by
  cases k <;> simp only [handleKey] <;> (try split) <;> omega

theorem scrollSeq_origin_y_nonneg (height show_title : ℤ) (ht : show_title ≤ height) :
    ∀ (ks : List PagingKey) (s : ViewState), 0 ≤ s.origin_y →
      0 ≤ (scrollSeq height show_title ks s).origin_y := by
  intro ks
  induction ks with
  | nil => intro s hs; exact hs
  | cons k rest ih =>
      intro s hs
      exact ih _ (handleKey_origin_y_nonneg height show_title ht k s hs)

/-- Claim C1 (corrected): any sequence of paging key events keeps origin_y
at or above 0, and the per-tick clamp keeps origin_y at or below
max_y minus height, hence at or below max(0, max_y minus height); the clamp
however has no lower bound, so when the content is shorter than the viewport
it drives origin_y below 0 (see the counterexample). -/
theorem scroll_clamp_bounds (height show_title : ℤ) (ht : show_title ≤ height)
    (ks : List PagingKey) (s : ViewState) (hs : 0 ≤ s.origin_y) :
    0 ≤ (scrollSeq height show_title ks s).origin_y
  ∧ ∀ (max_y oy : ℤ),
      clampViewportY max_y height oy ≤ max_y - height
      ∧ clampViewportY max_y height oy ≤ max 0 (max_y - height) := by
  constructor
  · exact scrollSeq_origin_y_nonneg height show_title ht ks s hs
  · intro max_y oy
    constructor
    · unfold clampViewportY
      split <;> omega
    · unfold clampViewportY
      have h1 : max_y - height ≤ max 0 (max_y - height) := le_max_right _ _
      split <;> omega

/-- Claim C1 witness: a page-down followed by a scroll-up from the origin
keeps origin_y at or above 0, and the clamp instance is bounded. -/
theorem scroll_clamp_bounds_witness :
    0 ≤ (scrollSeq 24 2 [PagingKey.npage, PagingKey.up] ⟨0, 0, false⟩).origin_y :=
  (scroll_clamp_bounds 24 2 (by decide) [PagingKey.npage, PagingKey.up] ⟨0, 0, false⟩
    (by decide)).1

/-- Claim C1 counterexample: with the title shown, empty content gives
max_y = 2; with height 24 the per-tick clamp moves origin_y from 0 to -22,
below 0, although the claim demands it stay at or above 0 even when the
content is shorter than the viewport. -/
theorem clamp_below_zero_on_short_content :
    clampViewportY 2 24 0 = -22 ∧ clampViewportY 2 24 0 < 0 := by decide

/-- Claim C5 (corrected): the jumpEnd key sets the one-shot go_to_end flag
and resets origin_x to 0 leaving origin_y alone; at end of stream the
resolution sets origin_y to max_y minus height unconditionally and clears
the flag; there is no special case setting origin_y to 0 when the content is
shorter than the viewport (see the counterexample). -/
theorem go_to_end_amended (height show_title max_y : ℤ) (s : ViewState) :
    ((handleKey height show_title .jumpEnd s).origin_x = 0
      ∧ (handleKey height show_title .jumpEnd s).go_to_end = true
      ∧ (handleKey height show_title .jumpEnd s).origin_y = s.origin_y)
  ∧ (s.go_to_end = true →
      resolveGoToEnd height max_y s =
        { origin_x := s.origin_x, origin_y := max_y - height, go_to_end := false })
  ∧ (s.go_to_end = false → resolveGoToEnd height max_y s = s) := by
  refine ⟨⟨rfl, rfl, rfl⟩, ?_, ?_⟩ <;> intro h <;> simp [resolveGoToEnd, h]

/-- Claim C5 witness: resolving a pending go-to-end with max_y 30 and height
24 puts origin_y at row 6 and clears the flag. -/
theorem go_to_end_witness :
    resolveGoToEnd 24 30 ⟨3, 5, true⟩ = ⟨3, 30 - 24, false⟩ :=
  (go_to_end_amended 24 0 30 ⟨3, 5, true⟩).2.1 rfl

/-- Claim C5 counterexample: content shorter than the viewport (max_y 2,
height 24); the claim says origin_y becomes 0, but the resolution sets it to
-22. -/
theorem go_to_end_short_content_counterexample :
    (2 : ℤ) < 24 ∧ (resolveGoToEnd 24 2 ⟨0, 0, true⟩).origin_y = -22
      ∧ (resolveGoToEnd 24 2 ⟨0, 0, true⟩).origin_y ≠ 0 := by decide

/-- Claim C9 (corrected): arrow keys move the origin by exactly 8 cells with
origin_y floor-clamped at 0 on scroll-up and origin_x floor-clamped at 0 on
scroll-left and no right bound on origin_x; page-down moves origin_y down by
exactly the viewport height minus the title rows; page-up moves it up by the
same step but is also floor-clamped at 0 (the clamp the claim omits, see the
counterexample); jumpHome resets both origins to 0. -/
theorem paging_steps_amended (height show_title : ℤ) (s : ViewState) :
    (handleKey height show_title .up s).origin_y = max 0 (s.origin_y - 8)
  ∧ (handleKey height show_title .up s).origin_x = s.origin_x
  ∧ (handleKey height show_title .down s).origin_y = s.origin_y + 8
  ∧ (handleKey height show_title .down s).origin_x = s.origin_x
  ∧ (handleKey height show_title .right s).origin_x = s.origin_x + 8
  ∧ (handleKey height show_title .right s).origin_y = s.origin_y
  ∧ (handleKey height show_title .left s).origin_x = max 0 (s.origin_x - 8)
  ∧ (handleKey height show_title .left s).origin_y = s.origin_y
  ∧ (handleKey height show_title .npage s).origin_y = s.origin_y + (height - show_title)
  ∧ (handleKey height show_title .ppage s).origin_y
      = max 0 (s.origin_y - (height - show_title))
  ∧ (handleKey height show_title .jumpHome s).origin_x = 0
  ∧ (handleKey height show_title .jumpHome s).origin_y = 0 := by
  refine ⟨?_, rfl, rfl, rfl, rfl, rfl, ?_, rfl, rfl, ?_, rfl, rfl⟩ <;>
    simp only [handleKey] <;> split <;> omega

/-- Claim C9 counterexample: a page-up at origin_y 0 with height 24 and two
title rows leaves origin_y at 0 instead of changing it by the full step of
22, so the move is not by exactly the viewport height minus the title rows. -/
theorem ppage_step_counterexample :
    (handleKey 24 2 .ppage ⟨0, 0, false⟩).origin_y = 0
  ∧ (handleKey 24 2 .ppage ⟨0, 0, false⟩).origin_y ≠ 0 - (24 - 2) := by decide

/-- Claim C6 (corrected): replaying the cursor rule over the bytes of the
input a tab b newline c ends with the cursor at column 1 of row 1, after the
character c; but the b is placed at column 9 of row 0, not column 8, because
a tab adds 8 to the current column instead of jumping to the next multiple
of 8 (see the counterexample). -/
theorem cursor_replay_amended :
    replayCursor [97, 9, 98, 10, 99] = (1, 1) ∧ replayCursor [97, 9] = (9, 0) := by decide

/-- Claim C6 counterexample: the cursor position at which b is drawn is the
replay over the preceding bytes a and tab, which is column 9, not column 8. -/
theorem cursor_tab_counterexample :
    (replayCursor [97, 9]).1 = 9 ∧ (replayCursor [97, 9]).1 ≠ 8 := by decide

/-- Claim C8 (confirmed): the parsed interval is clamped into the closed
range from 1/10 to UINT_MAX divided by 1000000 (unsigned integer division,
giving 4294): smaller values become 1/10, larger values become the cap, and
values inside the range are kept unchanged. -/
theorem interval_clamp_range (x : ℚ) :
    (x < 1/10 → clampInterval x = 1/10)
  ∧ (x > intervalCap → clampInterval x = intervalCap)
  ∧ (1/10 ≤ x → x ≤ intervalCap → clampInterval x = x)
  ∧ 1/10 ≤ clampInterval x ∧ clampInterval x ≤ intervalCap := by
  have hcap : intervalCap = 4294 := by norm_num [intervalCap, UINT_MAX]
  have hcap10 : ¬((1 : ℚ)/10 > intervalCap) := by rw [hcap]; norm_num
  by_cases hlo : x < 1/10
  · have hx : clampInterval x = 1/10 := by
      simp only [clampInterval]
      rw [if_pos hlo, if_neg hcap10]
    refine ⟨fun _ => hx, ?_, ?_, by rw [hx], by rw [hx, hcap]; norm_num⟩
    · intro h1
      rw [hcap] at h1
      linarith
    · intro h1 _
      linarith
  · by_cases hhi : x > intervalCap
    · have hx : clampInterval x = intervalCap := by
        simp only [clampInterval]
        rw [if_neg hlo, if_pos hhi]
      refine ⟨fun h1 => absurd h1 hlo, fun _ => hx, ?_, ?_, by rw [hx]⟩
      · intro _ h2
        exact absurd h2 (not_le.mpr hhi)
      · rw [hx, hcap]
        norm_num
    · have hx : clampInterval x = x := by
        simp only [clampInterval]
        rw [if_neg hlo, if_neg hhi]
      refine ⟨fun h1 => absurd h1 hlo, fun h1 => absurd h1 hhi, fun _ _ => hx, ?_, ?_⟩
      · rw [hx]
        exact not_lt.mp hlo
      · rw [hx]
        exact not_lt.mp hhi

/-- Claim C8 witness: a parsed interval of 0 is clamped up to 1/10. -/
theorem interval_clamp_witness : clampInterval 0 = 1/10 :=
  (interval_clamp_range 0).1 (by simp)

/-- Claim C2 (code bug): only the spawn failure path restores the terminal
before exiting (do_exit runs endwin and exits with status 2); the realloc
failure path and the clock failure path call exit(1) directly without
endwin, leaving the terminal in curses raw mode, contrary to the stated
contract and to the intent shown by the do_exit helper and the signal
handler comment in src/watch.c line 234. -/
theorem fatal_exit_paths_eval :
    spawnFailureExit = do_exit true 2
  ∧ spawnFailureExit.restores_terminal = true
  ∧ spawnFailureExit.status = 2
  ∧ reallocFailureExit.restores_terminal = false
  ∧ reallocFailureExit.status = 1
  ∧ clockFailureExit.restores_terminal = false
  ∧ clockFailureExit.status = 1 := by
  exact ⟨rfl, rfl, rfl, rfl, rfl, rfl, rfl⟩
